import Mathlib

/-!
A verification development for the object-lifecycle and list-management core
of the PandoraPFA reconstruction framework.  The definitions below are a
shallow embedding of the C++ sources:

* `src/src/Objects/OrderedCaloHitList.cc` — the ordered calo hit list, a
  `std::map<PseudoLayer, CaloHitList *>` whose buckets are
  `std::set<CaloHit *>` (the source calls `insert(...).second`, `find` and
  `erase(iterator)` on the buckets, which are member functions of `std::set`,
  and iterates the map in key order).  Calo hit pointers are modelled as
  natural numbers; a `std::set` of pointers is modelled as a strictly
  increasing list (its iteration order), and the `std::map` as a list of
  (layer, bucket) pairs strictly increasing in the layer key.
* `src/include/Managers/TrackManager.h` — the inline manager queries
  `GetCurrentListName` and `GetAlgorithmInputListName`; C++ output
  parameters are modelled by passing the previous value of the output
  variable in and returning the (possibly unchanged) value alongside the
  status code.
* `src/src/Helpers/FragmentRemovalHelper.cc` — `GetClusterHelixDistance`,
  `GetFractionOfCloseHits` and `GetFractionOfHitsInCone`.  Floating point
  distances are modelled over `Rat`; the geometric predicates that only
  gate counting (hit closeness, cone membership, helix distance per hit)
  are abstracted as oracle parameters, which the claims below do not
  depend on.
-/

namespace pandora

/-- The status codes of `Pandora/StatusCodes.h` used by the embedded code. -/
inductive StatusCode where
  | STATUS_CODE_SUCCESS
  | STATUS_CODE_FAILURE
  | STATUS_CODE_NOT_FOUND
  | STATUS_CODE_NOT_INITIALIZED
  | STATUS_CODE_ALREADY_PRESENT
  | STATUS_CODE_INVALID_PARAMETER
  deriving DecidableEq, Repr

open StatusCode

/-- A calo hit is identified by its address (`CaloHit *`). -/
abbrev CaloHit := Nat

/-- `typedef unsigned int PseudoLayer`. -/
abbrev PseudoLayer := Nat

/-- `typedef std::set<CaloHit *> CaloHitList`, as its iteration order: a
strictly increasing list of hit addresses. -/
abbrev CaloHitList := List CaloHit

/-- `std::map<PseudoLayer, CaloHitList *>`, as its iteration order: a list of
(layer, bucket) pairs strictly increasing in the layer key. -/
abbrev OrderedCaloHitList := List (PseudoLayer × CaloHitList)

/-- `std::set::insert`: returns the updated set together with the `.second`
of the C++ return value (true when the element was actually inserted). -/
def setInsert (x : Nat) : List Nat → List Nat × Bool
  | [] => ([x], true)
  | y :: ys =>
    if x < y then (x :: y :: ys, true)
    else if x = y then (y :: ys, false)
    else
      let r := setInsert x ys
      (y :: r.1, r.2)

/-- `std::set::erase` at the iterator found for `x`. -/
def setErase (x : Nat) : List Nat → List Nat
  | [] => []
  | y :: ys => if x = y then ys else y :: setErase x ys

/-- `std::map::find`. -/
def mapFind (l : PseudoLayer) : OrderedCaloHitList → Option CaloHitList
  | [] => none
  | (k, v) :: rest => if k = l then some v else mapFind l rest

/-- `std::map::insert`: returns the updated map together with the `.second`
of the C++ return value (false when the key was already present). -/
def mapInsert (l : PseudoLayer) (b : CaloHitList) : OrderedCaloHitList → OrderedCaloHitList × Bool
  | [] => ([(l, b)], true)
  | (k, v) :: rest =>
    if l < k then ((l, b) :: (k, v) :: rest, true)
    else if l = k then ((k, v) :: rest, false)
    else
      let r := mapInsert l b rest
      ((k, v) :: r.1, r.2)

/-- In-place mutation of the bucket stored under key `l` (the C++ code
mutates `*iter->second` through the iterator returned by `find`). -/
def mapUpdate (l : PseudoLayer) (b : CaloHitList) : OrderedCaloHitList → OrderedCaloHitList
  | [] => []
  | (k, v) :: rest => if k = l then (k, b) :: rest else (k, v) :: mapUpdate l b rest

/-- `std::map::erase` at the iterator found for `l`. -/
def mapErase (l : PseudoLayer) : OrderedCaloHitList → OrderedCaloHitList
  | [] => []
  | (k, v) :: rest => if k = l then rest else (k, v) :: mapErase l rest

/-- `OrderedCaloHitList::AddCaloHit` (OrderedCaloHitList.cc, lines 126-146):
if no bucket exists for the layer, a fresh bucket receives the hit and is
inserted into the map (each step returning `STATUS_CODE_FAILURE` on a failed
insert); otherwise the hit is inserted into the existing bucket, returning
`STATUS_CODE_ALREADY_PRESENT` when it was already there. -/
def AddCaloHit (pCaloHit : CaloHit) (pseudoLayer : PseudoLayer) (s : OrderedCaloHitList) :
    OrderedCaloHitList × StatusCode :=
  match mapFind pseudoLayer s with
  | none =>
    let hitIns := setInsert pCaloHit []
    if !hitIns.2 then (s, STATUS_CODE_FAILURE)
    else
      let mapIns := mapInsert pseudoLayer hitIns.1 s
      if !mapIns.2 then (s, STATUS_CODE_FAILURE)
      else (mapIns.1, STATUS_CODE_SUCCESS)
  | some bucket =>
    let hitIns := setInsert pCaloHit bucket
    let s' := mapUpdate pseudoLayer hitIns.1 s
    if !hitIns.2 then (s', STATUS_CODE_ALREADY_PRESENT)
    else (s', STATUS_CODE_SUCCESS)

/-- `OrderedCaloHitList::RemoveCaloHit` (OrderedCaloHitList.cc, lines
150-171): `STATUS_CODE_NOT_FOUND` when the layer bucket or the hit is
absent; otherwise the hit is erased and the bucket is deleted the moment it
becomes empty. -/
def RemoveCaloHit (pCaloHit : CaloHit) (pseudoLayer : PseudoLayer) (s : OrderedCaloHitList) :
    OrderedCaloHitList × StatusCode :=
  match mapFind pseudoLayer s with
  | none => (s, STATUS_CODE_NOT_FOUND)
  | some bucket =>
    if pCaloHit ∈ bucket then
      let bucket' := setErase pCaloHit bucket
      if bucket'.isEmpty then (mapErase pseudoLayer s, STATUS_CODE_SUCCESS)
      else (mapUpdate pseudoLayer bucket' s, STATUS_CODE_SUCCESS)
    else (s, STATUS_CODE_NOT_FOUND)

/-- `OrderedCaloHitList::GetCaloHitsInPseudoLayer` (OrderedCaloHitList.cc,
lines 70-80): the status code together with the output pointer, which is
written only on success. -/
def GetCaloHitsInPseudoLayer (pseudoLayer : PseudoLayer) (s : OrderedCaloHitList) :
    StatusCode × Option CaloHitList :=
  match mapFind pseudoLayer s with
  | none => (STATUS_CODE_NOT_FOUND, none)
  | some bucket => (STATUS_CODE_SUCCESS, some bucket)

/-- `OrderedCaloHitList::Reset` (OrderedCaloHitList.cc, lines 84-95):
deletes every bucket, clears the map, and returns `STATUS_CODE_FAILURE` if
the cleared map is somehow non-empty. -/
def Reset (_s : OrderedCaloHitList) : OrderedCaloHitList × StatusCode :=
  let cleared : OrderedCaloHitList := []
  if !cleared.isEmpty then (cleared, STATUS_CODE_FAILURE)
  else (cleared, STATUS_CODE_SUCCESS)

/-- `OrderedCaloHitList::GetCaloHitVector` (OrderedCaloHitList.cc, lines
99-109): push every hit of every bucket, iterating the map in its key order
and each bucket in its own order. -/
def GetCaloHitVector (s : OrderedCaloHitList) : List CaloHit :=
  (s.map Prod.snd).flatten

/-- One iteration block of `OrderedCaloHitList::Remove`: remove each hit of
one of `rhs`'s buckets from `this`, returning early exactly when a removal
reports a status that is neither success nor not-found
(`PANDORA_RETURN_RESULT_IF_AND_IF(STATUS_CODE_SUCCESS, STATUS_CODE_NOT_FOUND, !=, ...)`). -/
def removeHits (pseudoLayer : PseudoLayer) (s : OrderedCaloHitList) :
    List CaloHit → OrderedCaloHitList × StatusCode
  | [] => (s, STATUS_CODE_SUCCESS)
  | h :: hs =>
    let r := RemoveCaloHit h pseudoLayer s
    if r.2 ≠ STATUS_CODE_SUCCESS ∧ r.2 ≠ STATUS_CODE_NOT_FOUND then (r.1, r.2)
    else removeHits pseudoLayer r.1 hs

/-- The outer loop of `OrderedCaloHitList::Remove` over `rhs`'s layers. -/
def removeLayers (s : OrderedCaloHitList) : OrderedCaloHitList → OrderedCaloHitList × StatusCode
  | [] => (s, STATUS_CODE_SUCCESS)
  | (l, hits) :: rest =>
    let r := removeHits l s hits
    if r.2 ≠ STATUS_CODE_SUCCESS then (r.1, r.2)
    else removeLayers r.1 rest

/-- `OrderedCaloHitList::Remove` (OrderedCaloHitList.cc, lines 54-66). -/
def Remove (s rhs : OrderedCaloHitList) : OrderedCaloHitList × StatusCode :=
  removeLayers s rhs

/-- One `OrderedCaloHitList` mutation, for reasoning about operation
sequences. -/
inductive HitOp where
  | add (pCaloHit : CaloHit) (pseudoLayer : PseudoLayer)
  | remove (pCaloHit : CaloHit) (pseudoLayer : PseudoLayer)

/-- Apply one mutation to the container. -/
def runOp (s : OrderedCaloHitList) : HitOp → OrderedCaloHitList
  | HitOp.add h l => (AddCaloHit h l s).1
  | HitOp.remove h l => (RemoveCaloHit h l s).1

/-- Apply a sequence of mutations to the container. -/
def runOps (ops : List HitOp) (s : OrderedCaloHitList) : OrderedCaloHitList :=
  ops.foldl runOp s

/-- The representation invariant of the `std::map` of `std::set`s: the layer
keys are strictly increasing, and every bucket is a strictly increasing
non-empty list. -/
def WF (s : OrderedCaloHitList) : Prop :=
  List.Pairwise (· < ·) (s.map Prod.fst) ∧
    ∀ p ∈ s, List.Pairwise (· < ·) p.2 ∧ p.2 ≠ []

/-- No layer key of the container maps to an empty bucket. -/
def noEmptyBuckets (s : OrderedCaloHitList) : Prop :=
  ∀ p ∈ s, p.2 ≠ []

/-- The hit is a member of the bucket stored for the given layer. -/
def hitInLayer (s : OrderedCaloHitList) (pseudoLayer : PseudoLayer) (pCaloHit : CaloHit) : Prop :=
  match mapFind pseudoLayer s with
  | none => False
  | some bucket => pCaloHit ∈ bucket

/-- The (layer, hit) pairs of the container, in iteration order. -/
def pairsOf (s : OrderedCaloHitList) : List (PseudoLayer × CaloHit) :=
  s.flatMap fun p => p.2.map fun h => (p.1, h)

/-- Strict lexicographic order on (layer, hit) pairs: strictly deeper layer,
or same layer and strictly larger hit address. -/
def layerHitLT (a b : PseudoLayer × CaloHit) : Prop :=
  a.1 < b.1 ∨ (a.1 = b.1 ∧ a.2 < b.2)

/-! Lemmas about the `std::set` model. -/

theorem setInsert_ne_nil (x : Nat) (s : List Nat) : (setInsert x s).1 ≠ [] := by
  cases s with
  | nil => simp [setInsert]
  | cons y ys =>
    simp only [setInsert]
    split
    · simp
    · split
      · simp
      · simp

theorem mem_setInsert (a x : Nat) (s : List Nat) :
    a ∈ (setInsert x s).1 ↔ a = x ∨ a ∈ s := by
  induction s with
  | nil => simp [setInsert]
  | cons y ys ih =>
    simp only [setInsert]
    by_cases h1 : x < y
    · simp [h1, List.mem_cons]
    · by_cases h2 : x = y
      · subst h2
        simp [h1, List.mem_cons]
      · simp only [if_neg h1, if_neg h2, List.mem_cons, ih]
        tauto

theorem self_mem_setInsert (x : Nat) (s : List Nat) : x ∈ (setInsert x s).1 :=
  (mem_setInsert x x s).mpr (Or.inl rfl)

theorem setInsert_snd_false_iff (x : Nat) (s : List Nat)
    (hs : List.Pairwise (· < ·) s) : (setInsert x s).2 = false ↔ x ∈ s := by
  induction s with
  | nil => simp [setInsert]
  | cons y ys ih =>
    rw [List.pairwise_cons] at hs
    obtain ⟨hy, hys⟩ := hs
    simp only [setInsert]
    by_cases h1 : x < y
    · simp only [if_pos h1]
      constructor
      · intro hfalse; cases hfalse
      · intro hmem
        rcases List.mem_cons.mp hmem with rfl | hmem'
        · exact absurd h1 (lt_irrefl x)
        · exact absurd (lt_trans h1 (hy x hmem')) (lt_irrefl x)
    · by_cases h2 : x = y
      · subst h2
        simp [h1]
      · simp only [if_neg h1, if_neg h2, List.mem_cons, ih hys]
        tauto

theorem setInsert_snd_false_eq (x : Nat) (s : List Nat)
    (h : (setInsert x s).2 = false) : (setInsert x s).1 = s := by
  induction s with
  | nil => simp [setInsert] at h
  | cons y ys ih =>
    simp only [setInsert] at h ⊢
    by_cases h1 : x < y
    · simp [h1] at h
    · by_cases h2 : x = y
      · simp [h1, h2]
      · simp only [if_neg h1, if_neg h2] at h ⊢
        rw [ih h]

theorem setInsert_pairwise (x : Nat) (s : List Nat)
    (hs : List.Pairwise (· < ·) s) : List.Pairwise (· < ·) (setInsert x s).1 := by
  induction s with
  | nil => simp [setInsert]
  | cons y ys ih =>
    rw [List.pairwise_cons] at hs
    obtain ⟨hy, hys⟩ := hs
    simp only [setInsert]
    by_cases h1 : x < y
    · simp only [if_pos h1]
      refine List.pairwise_cons.mpr ⟨?_, List.pairwise_cons.mpr ⟨hy, hys⟩⟩
      intro z hz
      rcases List.mem_cons.mp hz with rfl | hz'
      · exact h1
      · exact lt_trans h1 (hy z hz')
    · by_cases h2 : x = y
      · subst h2
        simp only [if_neg h1, if_pos rfl]
        exact List.pairwise_cons.mpr ⟨hy, hys⟩
      · have hyx : y < x := by omega
        simp only [if_neg h1, if_neg h2]
        refine List.pairwise_cons.mpr ⟨?_, ih hys⟩
        intro z hz
        rcases (mem_setInsert z x ys).mp hz with rfl | hz'
        · exact hyx
        · exact hy z hz'

theorem setErase_sublist (x : Nat) (s : List Nat) : (setErase x s).Sublist s := by
  induction s with
  | nil => simp [setErase]
  | cons y ys ih =>
    simp only [setErase]
    by_cases h : x = y
    · simp only [if_pos h]
      exact (List.sublist_cons_self y ys)
    · simp only [if_neg h]
      exact ih.cons₂ y

theorem setErase_pairwise (x : Nat) (s : List Nat)
    (hs : List.Pairwise (· < ·) s) : List.Pairwise (· < ·) (setErase x s) :=
  hs.sublist (setErase_sublist x s)

/-! Lemmas about the `std::map` model. -/

theorem mapFind_eq_none_iff (l : PseudoLayer) (s : OrderedCaloHitList) :
    mapFind l s = none ↔ l ∉ s.map Prod.fst := by
  induction s with
  | nil => simp [mapFind]
  | cons p rest ih =>
    obtain ⟨k, v⟩ := p
    simp only [mapFind]
    by_cases h : k = l
    · simp [h]
    · simp only [if_neg h, List.map_cons, List.mem_cons, ih]
      constructor
      · intro hn hor
        rcases hor with rfl | hmem
        · exact h rfl
        · exact hn hmem
      · intro hn
        intro hmem
        exact hn (Or.inr hmem)

theorem mapFind_mem (l : PseudoLayer) (b : CaloHitList) (s : OrderedCaloHitList)
    (h : mapFind l s = some b) : (l, b) ∈ s := by
  induction s with
  | nil => simp [mapFind] at h
  | cons p rest ih =>
    obtain ⟨k, v⟩ := p
    simp only [mapFind] at h
    by_cases hk : k = l
    · rw [if_pos hk] at h
      injection h with h
      subst hk
      subst h
      exact List.mem_cons_self _ _
    · simp only [if_neg hk] at h
      exact List.mem_cons_of_mem _ (ih h)

theorem mem_mapInsert (p : PseudoLayer × CaloHitList) (l : PseudoLayer) (b : CaloHitList)
    (s : OrderedCaloHitList) (h : p ∈ (mapInsert l b s).1) : p = (l, b) ∨ p ∈ s := by
  induction s with
  | nil =>
    simp [mapInsert] at h
    exact Or.inl h
  | cons q rest ih =>
    obtain ⟨k, v⟩ := q
    simp only [mapInsert] at h
    by_cases h1 : l < k
    · simp only [if_pos h1, List.mem_cons] at h
      rcases h with rfl | rfl | hmem
      · exact Or.inl rfl
      · exact Or.inr (List.mem_cons_self _ _)
      · exact Or.inr (List.mem_cons_of_mem _ hmem)
    · by_cases h2 : l = k
      · simp only [if_neg h1, if_pos h2, List.mem_cons] at h
        rcases h with rfl | hmem
        · exact Or.inr (List.mem_cons_self _ _)
        · exact Or.inr (List.mem_cons_of_mem _ hmem)
      · simp only [if_neg h1, if_neg h2, List.mem_cons] at h
        rcases h with rfl | hmem
        · exact Or.inr (List.mem_cons_self _ _)
        · rcases ih hmem with h' | h'
          · exact Or.inl h'
          · exact Or.inr (List.mem_cons_of_mem _ h')

theorem mapInsert_keys_mem (z l : PseudoLayer) (b : CaloHitList) (s : OrderedCaloHitList)
    (h : z ∈ (mapInsert l b s).1.map Prod.fst) : z = l ∨ z ∈ s.map Prod.fst := by
  rcases List.mem_map.mp h with ⟨p, hp, rfl⟩
  rcases mem_mapInsert p l b s hp with rfl | hmem
  · exact Or.inl rfl
  · exact Or.inr (List.mem_map.mpr ⟨p, hmem, rfl⟩)

theorem mapInsert_pairwise (l : PseudoLayer) (b : CaloHitList) (s : OrderedCaloHitList)
    (hs : List.Pairwise (· < ·) (s.map Prod.fst)) :
    List.Pairwise (· < ·) ((mapInsert l b s).1.map Prod.fst) := by
  induction s with
  | nil => simp [mapInsert]
  | cons q rest ih =>
    obtain ⟨k, v⟩ := q
    simp only [List.map_cons, List.pairwise_cons] at hs
    obtain ⟨hk, hrest⟩ := hs
    simp only [mapInsert]
    by_cases h1 : l < k
    · simp only [if_pos h1, List.map_cons]
      refine List.pairwise_cons.mpr ⟨?_, List.pairwise_cons.mpr ⟨hk, hrest⟩⟩
      intro z hz
      rcases List.mem_cons.mp hz with rfl | hz'
      · exact h1
      · exact lt_trans h1 (hk z hz')
    · by_cases h2 : l = k
      · simp only [if_neg h1, if_pos h2, List.map_cons]
        exact List.pairwise_cons.mpr ⟨hk, hrest⟩
      · have hkl : k < l :=
          lt_of_le_of_ne (Nat.le_of_not_lt h1) fun he => h2 he.symm
        simp only [if_neg h1, if_neg h2, List.map_cons]
        refine List.pairwise_cons.mpr ⟨?_, ih hrest⟩
        intro z hz
        rcases mapInsert_keys_mem z l b rest hz with rfl | hz'
        · exact hkl
        · exact hk z hz'

theorem mapFind_mapInsert_self (l : PseudoLayer) (b : CaloHitList) (s : OrderedCaloHitList)
    (h : mapFind l s = none) : mapFind l (mapInsert l b s).1 = some b := by
  induction s with
  | nil => simp [mapInsert, mapFind]
  | cons q rest ih =>
    obtain ⟨k, v⟩ := q
    simp only [mapFind] at h
    by_cases hk : k = l
    · simp [hk] at h
    · simp only [if_neg hk] at h
      simp only [mapInsert]
      by_cases h1 : l < k
      · simp [h1, mapFind]
      · by_cases h2 : l = k
        · exact absurd h2.symm hk
        · simp only [if_neg h1, if_neg h2, mapFind, if_neg hk]
          exact ih h

theorem mapInsert_snd_true (l : PseudoLayer) (b : CaloHitList) (s : OrderedCaloHitList)
    (h : mapFind l s = none) : (mapInsert l b s).2 = true := by
  induction s with
  | nil => simp [mapInsert]
  | cons q rest ih =>
    obtain ⟨k, v⟩ := q
    simp only [mapFind] at h
    by_cases hk : k = l
    · simp [hk] at h
    · simp only [if_neg hk] at h
      simp only [mapInsert]
      by_cases h1 : l < k
      · simp [h1]
      · by_cases h2 : l = k
        · exact absurd h2.symm hk
        · simp only [if_neg h1, if_neg h2]
          exact ih h

theorem mapUpdate_keys (l : PseudoLayer) (b : CaloHitList) (s : OrderedCaloHitList) :
    (mapUpdate l b s).map Prod.fst = s.map Prod.fst := by
  induction s with
  | nil => simp [mapUpdate]
  | cons q rest ih =>
    obtain ⟨k, v⟩ := q
    simp only [mapUpdate]
    by_cases h : k = l
    · simp [h]
    · simp [h, ih]

theorem mem_mapUpdate (p : PseudoLayer × CaloHitList) (l : PseudoLayer) (b : CaloHitList)
    (s : OrderedCaloHitList) (h : p ∈ mapUpdate l b s) : p.2 = b ∨ p ∈ s := by
  induction s with
  | nil => simp [mapUpdate] at h
  | cons q rest ih =>
    obtain ⟨k, v⟩ := q
    simp only [mapUpdate] at h
    by_cases hk : k = l
    · simp only [if_pos hk, List.mem_cons] at h
      rcases h with rfl | hmem
      · exact Or.inl rfl
      · exact Or.inr (List.mem_cons_of_mem _ hmem)
    · simp only [if_neg hk, List.mem_cons] at h
      rcases h with rfl | hmem
      · exact Or.inr (List.mem_cons_self _ _)
      · rcases ih hmem with h' | h'
        · exact Or.inl h'
        · exact Or.inr (List.mem_cons_of_mem _ h')

theorem mapFind_mapUpdate_self (l : PseudoLayer) (b b' : CaloHitList) (s : OrderedCaloHitList)
    (h : mapFind l s = some b) : mapFind l (mapUpdate l b' s) = some b' := by
  induction s with
  | nil => simp [mapFind] at h
  | cons q rest ih =>
    obtain ⟨k, v⟩ := q
    simp only [mapFind] at h
    by_cases hk : k = l
    · simp [mapUpdate, hk, mapFind]
    · simp only [if_neg hk] at h
      simp only [mapUpdate, if_neg hk, mapFind]
      exact ih h

theorem mapErase_sublist (l : PseudoLayer) (s : OrderedCaloHitList) :
    (mapErase l s).Sublist s := by
  induction s with
  | nil => simp [mapErase]
  | cons q rest ih =>
    obtain ⟨k, v⟩ := q
    simp only [mapErase]
    by_cases h : k = l
    · simp only [if_pos h]
      exact List.sublist_cons_self _ _
    · simp only [if_neg h]
      exact ih.cons₂ _

theorem mapFind_mapErase_self (l : PseudoLayer) (s : OrderedCaloHitList)
    (hs : List.Pairwise (· < ·) (s.map Prod.fst)) : mapFind l (mapErase l s) = none := by
  induction s with
  | nil => simp [mapErase, mapFind]
  | cons q rest ih =>
    obtain ⟨k, v⟩ := q
    simp only [List.map_cons, List.pairwise_cons] at hs
    obtain ⟨hk, hrest⟩ := hs
    simp only [mapErase]
    by_cases h : k = l
    · subst h
      simp only [if_pos rfl]
      rw [mapFind_eq_none_iff]
      intro hmem
      exact absurd (hk k hmem) (lt_irrefl k)
    · simp only [if_neg h, mapFind, if_neg h]
      exact ih hrest

/-! Preservation of the container representation invariant. -/

theorem WF_nil : WF ([] : OrderedCaloHitList) := by
  constructor
  · simp
  · intro p hp
    simp at hp

theorem WF_AddCaloHit (h l : Nat) (s : OrderedCaloHitList) (hwf : WF s) :
    WF (AddCaloHit h l s).1 := by
  obtain ⟨hkeys, hbuckets⟩ := hwf
  cases hfind : mapFind l s with
  | none =>
    have hins2 : (mapInsert l [h] s).2 = true := mapInsert_snd_true l [h] s hfind
    have hstate : (AddCaloHit h l s).1 = (mapInsert l [h] s).1 := by
      simp [AddCaloHit, hfind, setInsert, hins2]
    rw [hstate]
    constructor
    · exact mapInsert_pairwise l [h] s hkeys
    · intro p hp
      rcases mem_mapInsert p l [h] s hp with rfl | hmem
      · exact ⟨by simp, by simp⟩
      · exact hbuckets p hmem
  | some bucket =>
    have hbp : List.Pairwise (· < ·) bucket :=
      (hbuckets _ (mapFind_mem l bucket s hfind)).1
    have hstate : (AddCaloHit h l s).1 = mapUpdate l (setInsert h bucket).1 s := by
      simp only [AddCaloHit, hfind, apply_ite Prod.fst, ite_self]
    rw [hstate]
    constructor
    · rw [mapUpdate_keys]
      exact hkeys
    · intro p hp
      rcases mem_mapUpdate p l _ s hp with hpb | hmem
      · refine ⟨?_, ?_⟩ <;> rw [hpb]
        · exact setInsert_pairwise h bucket hbp
        · exact setInsert_ne_nil h bucket
      · exact hbuckets p hmem

theorem WF_RemoveCaloHit (h l : Nat) (s : OrderedCaloHitList) (hwf : WF s) :
    WF (RemoveCaloHit h l s).1 := by
  obtain ⟨hkeys, hbuckets⟩ := hwf
  cases hfind : mapFind l s with
  | none =>
    simp only [RemoveCaloHit, hfind]
    exact ⟨hkeys, hbuckets⟩
  | some bucket =>
    have hbp : List.Pairwise (· < ·) bucket :=
      (hbuckets _ (mapFind_mem l bucket s hfind)).1
    simp only [RemoveCaloHit, hfind]
    by_cases hmem : h ∈ bucket
    · rw [if_pos hmem]
      by_cases hemp : (setErase h bucket).isEmpty
      · rw [if_pos hemp]
        constructor
        · exact hkeys.sublist ((mapErase_sublist l s).map Prod.fst)
        · intro p hp
          exact hbuckets p ((mapErase_sublist l s).subset hp)
      · rw [if_neg hemp]
        constructor
        · rw [mapUpdate_keys]
          exact hkeys
        · intro p hp
          rcases mem_mapUpdate p l _ s hp with hpb | hmem'
          · refine ⟨?_, ?_⟩ <;> rw [hpb]
            · exact setErase_pairwise h bucket hbp
            · intro hnil
              exact hemp (by simp [hnil])
          · exact hbuckets p hmem'
    · rw [if_neg hmem]
      exact ⟨hkeys, hbuckets⟩

theorem WF_runOps (ops : List HitOp) (s : OrderedCaloHitList) (hwf : WF s) :
    WF (runOps ops s) := by
  induction ops generalizing s with
  | nil => exact hwf
  | cons op rest ih =>
    show WF (runOps rest (runOp s op))
    cases op with
    | add h l => exact ih _ (WF_AddCaloHit h l s hwf)
    | remove h l => exact ih _ (WF_RemoveCaloHit h l s hwf)

/-! Status codes of the removal operations. -/

theorem RemoveCaloHit_status (s : OrderedCaloHitList) (h l : Nat) :
    (RemoveCaloHit h l s).2 = StatusCode.STATUS_CODE_SUCCESS ∨
    (RemoveCaloHit h l s).2 = StatusCode.STATUS_CODE_NOT_FOUND := by
  cases hfind : mapFind l s with
  | none => simp [RemoveCaloHit, hfind]
  | some bucket =>
    simp only [RemoveCaloHit, hfind]
    by_cases hmem : h ∈ bucket
    · rw [if_pos hmem]
      by_cases hemp : (setErase h bucket).isEmpty
      · rw [if_pos hemp]
        exact Or.inl rfl
      · rw [if_neg hemp]
        exact Or.inl rfl
    · rw [if_neg hmem]
      exact Or.inr rfl

theorem removeHits_eq (l : Nat) (s : OrderedCaloHitList) (hits : List Nat) :
    removeHits l s hits =
      (hits.foldl (fun a h => (RemoveCaloHit h l a).1) s, StatusCode.STATUS_CODE_SUCCESS) := by
  induction hits generalizing s with
  | nil => simp [removeHits]
  | cons h hs ih =>
    simp only [removeHits, List.foldl_cons]
    rcases RemoveCaloHit_status s h l with hst | hst
    · rw [if_neg (by simp [hst])]
      exact ih _
    · rw [if_neg (by simp [hst])]
      exact ih _

theorem removeLayers_eq (s rhs : OrderedCaloHitList) :
    removeLayers s rhs =
      (rhs.foldl (fun acc p => p.2.foldl (fun a h => (RemoveCaloHit h p.1 a).1) acc) s,
        StatusCode.STATUS_CODE_SUCCESS) := by
  induction rhs generalizing s with
  | nil => simp [removeLayers]
  | cons p rest ih =>
    obtain ⟨l, hits⟩ := p
    simp only [removeLayers, List.foldl_cons, removeHits_eq]
    rw [if_neg (by simp)]
    exact ih _

/-- Claim C1: the ordered layer container never holds an empty bucket — no
sequence of `AddCaloHit`/`RemoveCaloHit` operations starting from the empty
container produces one — and removing the last hit of a layer bucket makes
a subsequent `GetCaloHitsInPseudoLayer` query for that layer report
`STATUS_CODE_NOT_FOUND`. -/
theorem orderedCaloHitList_never_holds_empty_buckets :
    (∀ ops : List HitOp, noEmptyBuckets (runOps ops [])) ∧
    (∀ (s : OrderedCaloHitList) (h l : Nat),
      List.Pairwise (· < ·) (s.map Prod.fst) → mapFind l s = some [h] →
      (GetCaloHitsInPseudoLayer l (RemoveCaloHit h l s).1).1 =
        StatusCode.STATUS_CODE_NOT_FOUND) := by
  constructor
  · intro ops p hp
    exact ((WF_runOps ops [] WF_nil).2 p hp).2
  · intro s h l hkeys hfind
    have h1 : RemoveCaloHit h l s = (mapErase l s, StatusCode.STATUS_CODE_SUCCESS) := by
      simp [RemoveCaloHit, hfind, setErase]
    rw [h1]
    simp [GetCaloHitsInPseudoLayer, mapFind_mapErase_self l s hkeys]

/-- Witness for claim C1: removing the only hit of layer 5 from the
container holding exactly that hit makes the layer query fail. -/
theorem orderedCaloHitList_never_holds_empty_buckets_witness :
    (GetCaloHitsInPseudoLayer 5 (RemoveCaloHit 7 5 [(5, [7])]).1).1 =
      StatusCode.STATUS_CODE_NOT_FOUND :=
  orderedCaloHitList_never_holds_empty_buckets.2 [(5, [7])] 7 5 (by decide) (by decide)

/-- Claim C9: `Reset` always returns success — after clearing, the map is
empty, so the failure branch guarding non-emptiness is unreachable — and
every subsequent layer query on the reset container reports
`STATUS_CODE_NOT_FOUND`. -/
theorem reset_always_succeeds :
    ∀ s : OrderedCaloHitList,
      Reset s = ([], StatusCode.STATUS_CODE_SUCCESS) ∧
      ∀ l, GetCaloHitsInPseudoLayer l (Reset s).1 =
        (StatusCode.STATUS_CODE_NOT_FOUND, none) :=
  fun _s => ⟨rfl, fun _l => rfl⟩

/-- Claim C4: every per-entry removal performed by `Remove` returns either
success or not-found, so `Remove` never takes its early-failure exit: it
performs the removal for every (layer, hit) pair of the other container and
returns `STATUS_CODE_SUCCESS`. -/
theorem remove_tolerates_not_found :
    ∀ s rhs : OrderedCaloHitList,
      (∀ (s₀ : OrderedCaloHitList) (h l : Nat),
        (RemoveCaloHit h l s₀).2 = StatusCode.STATUS_CODE_SUCCESS ∨
        (RemoveCaloHit h l s₀).2 = StatusCode.STATUS_CODE_NOT_FOUND) ∧
      Remove s rhs =
        (rhs.foldl (fun acc p => p.2.foldl (fun a h => (RemoveCaloHit h p.1 a).1) acc) s,
          StatusCode.STATUS_CODE_SUCCESS) :=
  fun s rhs => ⟨fun s₀ h l => RemoveCaloHit_status s₀ h l, removeLayers_eq s rhs⟩

/-- Claim C3: on a well-formed container, `AddCaloHit` returns
`STATUS_CODE_ALREADY_PRESENT` exactly when the hit is already in that
layer's bucket; otherwise it returns `STATUS_CODE_SUCCESS` and the hit is in
the layer's bucket afterwards (the bucket being created when absent). -/
theorem addCaloHit_already_present_iff :
    ∀ (s : OrderedCaloHitList) (h l : Nat), WF s →
      ((AddCaloHit h l s).2 = StatusCode.STATUS_CODE_ALREADY_PRESENT ↔ hitInLayer s l h) ∧
      (¬hitInLayer s l h →
        (AddCaloHit h l s).2 = StatusCode.STATUS_CODE_SUCCESS ∧
        hitInLayer (AddCaloHit h l s).1 l h) := by
  intro s h l hwf
  obtain ⟨hkeys, hbuckets⟩ := hwf
  cases hfind : mapFind l s with
  | none =>
    have hins2 : (mapInsert l [h] s).2 = true := mapInsert_snd_true l [h] s hfind
    have hstate : AddCaloHit h l s =
        ((mapInsert l [h] s).1, StatusCode.STATUS_CODE_SUCCESS) := by
      simp [AddCaloHit, hfind, setInsert, hins2]
    rw [hstate]
    have hlayer : ¬hitInLayer s l h := by
      simp [hitInLayer, hfind]
    constructor
    · constructor
      · intro he
        cases he
      · intro hc
        exact absurd hc hlayer
    · intro _
      refine ⟨rfl, ?_⟩
      simp [hitInLayer, mapFind_mapInsert_self l [h] s hfind]
  | some bucket =>
    have hbp : List.Pairwise (· < ·) bucket :=
      (hbuckets _ (mapFind_mem l bucket s hfind)).1
    have hlayer : hitInLayer s l h ↔ h ∈ bucket := by
      simp [hitInLayer, hfind]
    by_cases hmem : h ∈ bucket
    · have hsnd : (setInsert h bucket).2 = false :=
        (setInsert_snd_false_iff h bucket hbp).mpr hmem
      have hstate : AddCaloHit h l s =
          (mapUpdate l (setInsert h bucket).1 s, StatusCode.STATUS_CODE_ALREADY_PRESENT) := by
        simp [AddCaloHit, hfind, hsnd]
      rw [hstate]
      constructor
      · simp [hlayer, hmem]
      · intro hc
        exact absurd (hlayer.mpr hmem) hc
    · have hsnd : (setInsert h bucket).2 = true := by
        cases hb : (setInsert h bucket).2
        · exact absurd ((setInsert_snd_false_iff h bucket hbp).mp hb) hmem
        · rfl
      have hstate : AddCaloHit h l s =
          (mapUpdate l (setInsert h bucket).1 s, StatusCode.STATUS_CODE_SUCCESS) := by
        simp [AddCaloHit, hfind, hsnd]
      rw [hstate]
      constructor
      · constructor
        · intro he
          cases he
        · intro hc
          exact absurd (hlayer.mp hc) hmem
      · intro _
        refine ⟨rfl, ?_⟩
        simp only [hitInLayer, mapFind_mapUpdate_self l bucket _ s hfind]
        exact self_mem_setInsert h bucket

/-- Witness for claim C3: adding hit 4 to layer 2 when it is already there
reports the duplicate, and adding a fresh hit succeeds. -/
theorem addCaloHit_already_present_iff_witness :
    ((AddCaloHit 4 2 [(2, [4])]).2 = StatusCode.STATUS_CODE_ALREADY_PRESENT ↔
      hitInLayer [(2, [4])] 2 4) ∧
    (¬hitInLayer [(2, [4])] 2 4 →
      (AddCaloHit 4 2 [(2, [4])]).2 = StatusCode.STATUS_CODE_SUCCESS ∧
      hitInLayer (AddCaloHit 4 2 [(2, [4])]).1 2 4) :=
  addCaloHit_already_present_iff [(2, [4])] 4 2 (by constructor <;> decide)

/-! The ordering of the flattened hit vector. -/

theorem pairsOf_fst_mem (y : PseudoLayer × CaloHit) (s : OrderedCaloHitList)
    (hy : y ∈ pairsOf s) : y.1 ∈ s.map Prod.fst := by
  simp only [pairsOf, List.mem_flatMap] at hy
  rcases hy with ⟨p, hp, hyp⟩
  rcases List.mem_map.mp hyp with ⟨h, _, rfl⟩
  exact List.mem_map.mpr ⟨p, hp, rfl⟩

theorem pairsOf_pairwise (s : OrderedCaloHitList) :
    WF s → List.Pairwise layerHitLT (pairsOf s) := by
  induction s with
  | nil =>
    intro _
    simp [pairsOf]
  | cons p rest ih =>
    intro hwf
    obtain ⟨l, b⟩ := p
    obtain ⟨hkeys, hbuckets⟩ := hwf
    simp only [List.map_cons, List.pairwise_cons] at hkeys
    obtain ⟨hl, hrest⟩ := hkeys
    have hwfrest : WF rest :=
      ⟨hrest, fun q hq => hbuckets q (List.mem_cons_of_mem _ hq)⟩
    have hb := hbuckets (l, b) (List.mem_cons_self _ _)
    simp only [pairsOf, List.flatMap_cons]
    rw [List.pairwise_append]
    refine ⟨?_, ih hwfrest, ?_⟩
    · exact hb.1.map _ fun a c hac => Or.inr ⟨rfl, hac⟩
    · intro x hx y hy
      rcases List.mem_map.mp hx with ⟨h, _, rfl⟩
      exact Or.inl (hl y.1 (pairsOf_fst_mem y rest hy))

theorem getCaloHitVector_eq_pairs (s : OrderedCaloHitList) :
    GetCaloHitVector s = (pairsOf s).map Prod.snd := by
  induction s with
  | nil => simp [GetCaloHitVector, pairsOf]
  | cons p rest ih =>
    obtain ⟨l, b⟩ := p
    simp only [GetCaloHitVector, pairsOf, List.map_cons, List.flatten_cons,
      List.flatMap_cons, List.map_append, List.map_map] at ih ⊢
    rw [ih]
    congr 1
    simp

theorem mem_getCaloHitVector (h : CaloHit) (s : OrderedCaloHitList) :
    h ∈ GetCaloHitVector s ↔ ∃ p ∈ s, h ∈ p.2 := by
  simp only [GetCaloHitVector, List.mem_flatten, List.mem_map]
  constructor
  · rintro ⟨b, ⟨p, hp, rfl⟩, hhb⟩
    exact ⟨p, hp, hhb⟩
  · rintro ⟨p, hp, hhp⟩
    exact ⟨p.2, ⟨p, hp, rfl⟩, hhp⟩

/-- Claim C2, amended: on any container reachable by add/remove operations,
`GetCaloHitVector` yields exactly the contained hits, in map iteration
order: ascending pseudo layer, and within a layer the bucket's own
iteration order — ascending hit address — not insertion order. -/
theorem getCaloHitVector_ordered :
    ∀ ops : List HitOp,
      List.Pairwise layerHitLT (pairsOf (runOps ops [])) ∧
      GetCaloHitVector (runOps ops []) = (pairsOf (runOps ops [])).map Prod.snd ∧
      ∀ h : CaloHit, h ∈ GetCaloHitVector (runOps ops []) ↔
        ∃ p ∈ runOps ops [], h ∈ p.2 :=
  fun ops =>
    ⟨pairsOf_pairwise _ (WF_runOps ops [] WF_nil), getCaloHitVector_eq_pairs _,
      fun h => mem_getCaloHitVector h _⟩

/-- Counterexample to claim C2 as stated: with hit addresses h1 = 2, h2 = 1,
h3 = 3, inserting h1@5, h2@5, h3@7 and flattening yields [1, 2, 3] — the
layer-5 bucket iterates in ascending hit address order — not the insertion
order [h1, h2, h3] = [2, 1, 3]. -/
theorem getCaloHitVector_insertion_order_counterexample :
    GetCaloHitVector (runOps [HitOp.add 2 5, HitOp.add 1 5, HitOp.add 3 7] []) = [1, 2, 3] ∧
    GetCaloHitVector (runOps [HitOp.add 2 5, HitOp.add 1 5, HitOp.add 3 7] []) ≠ [2, 1, 3] := by
  constructor
  · rfl
  · decide

/-! The track manager (TrackManager.h). -/

/-- `typedef std::set<Track *> TrackList`, by its contents. -/
abbrev TrackList := List Nat

/-- `TrackManager::AlgorithmInfo` (TrackManager.h, lines 181-187). -/
structure AlgorithmInfo where
  m_parentListName : String
  m_temporaryListNames : List String
  m_numberOfListsCreated : Nat

/-- The member state of `TrackManager` (TrackManager.h, lines 189-205)
relevant to the list queries; algorithm addresses (`Algorithm *`) are
modelled as natural numbers. -/
structure TrackManager where
  m_nameToTrackListMap : List (String × TrackList)
  m_algorithmInfoMap : List (Nat × AlgorithmInfo)
  m_currentListName : String
  m_savedLists : List String

/-- `std::map::find` over an association list, for the manager maps. -/
def assocFind {α β : Type} [DecidableEq α] (k : α) : List (α × β) → Option β
  | [] => none
  | (k', v) :: rest => if k' = k then some v else assocFind k rest

/-- `TrackManager::GetCurrentListName` (TrackManager.h, lines 216-224): the
output parameter is modelled by passing its previous value in and returning
the (possibly unchanged) value next to the status code.  The C++ guard is
`m_currentListName.empty()`. -/
def TrackManager.GetCurrentListName (m : TrackManager) (trackListName : String) :
    StatusCode × String :=
  if m.m_currentListName = "" then (StatusCode.STATUS_CODE_NOT_INITIALIZED, trackListName)
  else (StatusCode.STATUS_CODE_SUCCESS, m.m_currentListName)

/-- `TrackManager::GetAlgorithmInputListName` (TrackManager.h, lines
228-238): an unregistered algorithm falls back to `GetCurrentListName`; a
registered one receives its stored parent list name. -/
def TrackManager.GetAlgorithmInputListName (m : TrackManager) (pAlgorithm : Nat)
    (trackListName : String) : StatusCode × String :=
  match assocFind pAlgorithm m.m_algorithmInfoMap with
  | none => m.GetCurrentListName trackListName
  | some info => (StatusCode.STATUS_CODE_SUCCESS, info.m_parentListName)

/-- Modelled from the spec: the bodies of `TrackManager::SaveList`
(declared at TrackManager.h, lines 112-118) and
`InputObjectManager<T>::SaveList` (declared at InputObjectManager.h, lines
54-60) are not under src/ — only their declarations are.  Per spec section
4.2, `saveList` creates a new named list from the given collection of
references and fails with `AlreadyPresent` if a list by that name already
exists. -/
def TrackManager.SaveList (m : TrackManager) (trackList : TrackList)
    (newListName : String) : TrackManager × StatusCode :=
  match assocFind newListName m.m_nameToTrackListMap with
  | some _ => (m, StatusCode.STATUS_CODE_ALREADY_PRESENT)
  | none =>
    ({ m with
        m_nameToTrackListMap := m.m_nameToTrackListMap ++ [(newListName, trackList)],
        m_savedLists := m.m_savedLists ++ [newListName] },
      StatusCode.STATUS_CODE_SUCCESS)

/-- Claim C6: while the current list name is unset (empty),
`GetCurrentListName` reports `STATUS_CODE_NOT_INITIALIZED` and leaves the
output parameter untouched; once a (non-empty) name is assigned it reports
success and yields that name. -/
theorem getCurrentListName_spec :
    ∀ (m : TrackManager) (out : String),
      (m.m_currentListName = "" →
        m.GetCurrentListName out = (StatusCode.STATUS_CODE_NOT_INITIALIZED, out)) ∧
      (m.m_currentListName ≠ "" →
        m.GetCurrentListName out = (StatusCode.STATUS_CODE_SUCCESS, m.m_currentListName)) := by
  intro m out
  constructor
  · intro h
    simp [TrackManager.GetCurrentListName, h]
  · intro h
    simp [TrackManager.GetCurrentListName, h]

/-- Witness for claim C6: concrete managers with unset and set current list
names. -/
theorem getCurrentListName_spec_witness :
    (TrackManager.mk [] [] "" []).GetCurrentListName "x" =
      (StatusCode.STATUS_CODE_NOT_INITIALIZED, "x") ∧
    (TrackManager.mk [] [] "input" []).GetCurrentListName "x" =
      (StatusCode.STATUS_CODE_SUCCESS, "input") :=
  ⟨(getCurrentListName_spec (TrackManager.mk [] [] "" []) "x").1 rfl,
    (getCurrentListName_spec (TrackManager.mk [] [] "input" []) "x").2 (by decide)⟩

/-- Claim C8: for an algorithm with no entry in the algorithm info map,
`GetAlgorithmInputListName` behaves exactly as `GetCurrentListName` —
yielding the current list name, and `STATUS_CODE_NOT_INITIALIZED` (never
`STATUS_CODE_NOT_FOUND`) only when the current pointer is also unset; for a
registered algorithm it yields the stored parent list name snapshot. -/
theorem getAlgorithmInputListName_spec :
    ∀ (m : TrackManager) (a : Nat) (out : String),
      (assocFind a m.m_algorithmInfoMap = none →
        m.GetAlgorithmInputListName a out = m.GetCurrentListName out ∧
        (m.m_currentListName = "" →
          m.GetAlgorithmInputListName a out =
            (StatusCode.STATUS_CODE_NOT_INITIALIZED, out)) ∧
        (m.m_currentListName ≠ "" →
          m.GetAlgorithmInputListName a out =
            (StatusCode.STATUS_CODE_SUCCESS, m.m_currentListName))) ∧
      (∀ info, assocFind a m.m_algorithmInfoMap = some info →
        m.GetAlgorithmInputListName a out =
          (StatusCode.STATUS_CODE_SUCCESS, info.m_parentListName)) := by
  intro m a out
  constructor
  · intro hnone
    refine ⟨by simp [TrackManager.GetAlgorithmInputListName, hnone], ?_, ?_⟩
    · intro hcur
      simp [TrackManager.GetAlgorithmInputListName, hnone,
        TrackManager.GetCurrentListName, hcur]
    · intro hcur
      simp [TrackManager.GetAlgorithmInputListName, hnone,
        TrackManager.GetCurrentListName, hcur]
  · intro info hsome
    simp [TrackManager.GetAlgorithmInputListName, hsome]

/-- Witness for claim C8: an unregistered algorithm falls back to the
current list name; a registered one receives its parent list snapshot. -/
theorem getAlgorithmInputListName_spec_witness :
    ((TrackManager.mk [] [] "cur" []).GetAlgorithmInputListName 3 "x" =
        (TrackManager.mk [] [] "cur" []).GetCurrentListName "x" ∧
      ("cur" = "" →
        (TrackManager.mk [] [] "cur" []).GetAlgorithmInputListName 3 "x" =
          (StatusCode.STATUS_CODE_NOT_INITIALIZED, "x")) ∧
      ("cur" ≠ "" →
        (TrackManager.mk [] [] "cur" []).GetAlgorithmInputListName 3 "x" =
          (StatusCode.STATUS_CODE_SUCCESS, "cur"))) ∧
    (TrackManager.mk [] [(7, AlgorithmInfo.mk "parent" [] 0)] "cur" []).GetAlgorithmInputListName
        7 "x" = (StatusCode.STATUS_CODE_SUCCESS, "parent") :=
  ⟨(getAlgorithmInputListName_spec (TrackManager.mk [] [] "cur" []) 3 "x").1 rfl,
    (getAlgorithmInputListName_spec
      (TrackManager.mk [] [(7, AlgorithmInfo.mk "parent" [] 0)] "cur" []) 7 "x").2
      (AlgorithmInfo.mk "parent" [] 0) rfl⟩

/-- Claim C5: saving a list under a name that already maps to a list fails
with `STATUS_CODE_ALREADY_PRESENT`, the manager state is unchanged, and the
pre-existing list is still mapped under that name. -/
theorem saveList_already_present :
    ∀ (m : TrackManager) (tl : TrackList) (name : String) (L : TrackList),
      assocFind name m.m_nameToTrackListMap = some L →
      m.SaveList tl name = (m, StatusCode.STATUS_CODE_ALREADY_PRESENT) ∧
      assocFind name (m.SaveList tl name).1.m_nameToTrackListMap = some L := by
  intro m tl name L h
  constructor
  · simp [TrackManager.SaveList, h]
  · simp [TrackManager.SaveList, h]

/-- Witness for claim C5: re-saving under the taken name "cones" is
rejected and the stored list survives. -/
theorem saveList_already_present_witness :
    (TrackManager.mk [("cones", [1, 2])] [] "" []).SaveList [9] "cones" =
      (TrackManager.mk [("cones", [1, 2])] [] "" [],
        StatusCode.STATUS_CODE_ALREADY_PRESENT) ∧
    assocFind "cones"
      ((TrackManager.mk [("cones", [1, 2])] [] "" []).SaveList [9] "cones").1.m_nameToTrackListMap =
      some [1, 2] :=
  saveList_already_present (TrackManager.mk [("cones", [1, 2])] [] "" []) [9] "cones" [1, 2] rfl

/-! The fragment removal helper (FragmentRemovalHelper.cc). -/

/-- The exact value of `std::numeric_limits<float>::max()`. -/
def FLT_MAX : Rat := 2 ^ 128 - 2 ^ 104

/-- The data of `Cluster` consumed by the fraction and helix helpers: the
hit count reported by `GetNCaloHits` and the ordered calo hit list. -/
structure Cluster where
  nCaloHits : Nat
  orderedCaloHitList : OrderedCaloHitList

/-- `Cluster::GetNCaloHits`. -/
def Cluster.GetNCaloHits (c : Cluster) : Nat := c.nCaloHits

/-- `Cluster::GetOrderedCaloHitList`. -/
def Cluster.GetOrderedCaloHitList (c : Cluster) : OrderedCaloHitList := c.orderedCaloHitList

/-- The inner hit loop of `FragmentRemovalHelper::GetClusterHelixDistance`
(FragmentRemovalHelper.cc, lines 212-224): per hit, query the helix
distance (abstracted as the oracle `dist`, standing for
`Helix::GetDistanceToPoint` followed by `GetZ`), propagating any non-success
status, and accumulate the minimum, the sum and the hit count. -/
def helixHitsLoop (dist : CaloHit → StatusCode × Rat) :
    List CaloHit → Nat → Rat → Rat → StatusCode × Nat × Rat × Rat
  | [], nHits, sum, minD => (StatusCode.STATUS_CODE_SUCCESS, nHits, sum, minD)
  | h :: rest, nHits, sum, minD =>
    let r := dist h
    if r.1 ≠ StatusCode.STATUS_CODE_SUCCESS then (r.1, nHits, sum, minD)
    else
      let minD' := if r.2 < minD then r.2 else minD
      helixHitsLoop dist rest (nHits + 1) (sum + r.2) minD'

/-- The layer loop of `FragmentRemovalHelper::GetClusterHelixDistance`
(FragmentRemovalHelper.cc, lines 202-225): skip unoccupied layers, break
once the occupied-layer budget is exceeded, and run the hit loop
otherwise. -/
def helixLayersLoop (dist : CaloHit → StatusCode × Rat) (s : OrderedCaloHitList)
    (maxOccupiedLayers : Nat) :
    List PseudoLayer → Nat → Nat → Rat → Rat → StatusCode × Nat × Rat × Rat
  | [], nHits, _nOccupied, sum, minD => (StatusCode.STATUS_CODE_SUCCESS, nHits, sum, minD)
  | l :: rest, nHits, nOccupied, sum, minD =>
    match mapFind l s with
    | none => helixLayersLoop dist s maxOccupiedLayers rest nHits nOccupied sum minD
    | some bucket =>
      if maxOccupiedLayers < nOccupied + 1 then
        (StatusCode.STATUS_CODE_SUCCESS, nHits, sum, minD)
      else
        let r := helixHitsLoop dist bucket nHits sum minD
        if r.1 ≠ StatusCode.STATUS_CODE_SUCCESS then r
        else helixLayersLoop dist s maxOccupiedLayers rest r.2.1 (nOccupied + 1) r.2.2.1 r.2.2.2

/-- `FragmentRemovalHelper::GetClusterHelixDistance`
(FragmentRemovalHelper.cc, lines 192-235): an inverted layer range is
rejected with `STATUS_CODE_INVALID_PARAMETER` before anything else; the two
output distances are passed in and returned, written only on success. -/
def GetClusterHelixDistance (dist : CaloHit → StatusCode × Rat)
    (pCluster : Cluster) (startLayer endLayer : PseudoLayer) (maxOccupiedLayers : Nat)
    (closestDistanceToHit meanDistanceToHits : Rat) : StatusCode × Rat × Rat :=
  if startLayer > endLayer then
    (StatusCode.STATUS_CODE_INVALID_PARAMETER, closestDistanceToHit, meanDistanceToHits)
  else
    let r := helixLayersLoop dist pCluster.GetOrderedCaloHitList maxOccupiedLayers
      (List.range' startLayer (endLayer + 1 - startLayer)) 0 0 0 FLT_MAX
    if r.1 ≠ StatusCode.STATUS_CODE_SUCCESS then
      (r.1, closestDistanceToHit, meanDistanceToHits)
    else if r.2.1 ≠ 0 then
      (StatusCode.STATUS_CODE_SUCCESS, r.2.2.2, r.2.2.1 / (r.2.1 : Rat))
    else (StatusCode.STATUS_CODE_NOT_FOUND, closestDistanceToHit, meanDistanceToHits)

/-- `FragmentRemovalHelper::GetFractionOfCloseHits`
(FragmentRemovalHelper.cc, lines 24-67): returns 0 outright when cluster I
reports no calo hits; otherwise counts the hits of cluster I that have some
sufficiently close hit in cluster J (the squared-distance threshold test on
the two hit positions abstracted as the oracle `isClose`) and divides by
cluster I's hit count. -/
def GetFractionOfCloseHits (isClose : CaloHit → CaloHit → Bool)
    (pClusterI pClusterJ : Cluster) : Rat :=
  let nCaloHitsI := pClusterI.GetNCaloHits
  if nCaloHitsI = 0 then 0
  else
    let nCloseHits :=
      (GetCaloHitVector pClusterI.GetOrderedCaloHitList).countP fun hI =>
        (GetCaloHitVector pClusterJ.GetOrderedCaloHitList).any fun hJ => isClose hI hJ
    (nCloseHits : Rat) / (nCaloHitsI : Rat)

/-- `FragmentRemovalHelper::GetFractionOfHitsInCone`
(FragmentRemovalHelper.cc, lines 107-135): returns 0 outright when the
probed cluster reports no calo hits; otherwise counts the hits inside the
cone (the cosine test against the cone axis abstracted as the oracle
`inCone`) and divides by the hit count. -/
def GetFractionOfHitsInCone (inCone : CaloHit → Bool) (pCluster : Cluster) : Rat :=
  let nCaloHits := pCluster.GetNCaloHits
  if nCaloHits = 0 then 0
  else
    let nHitsInCone := (GetCaloHitVector pCluster.GetOrderedCaloHitList).countP inCone
    (nHitsInCone : Rat) / (nCaloHits : Rat)

/-- Claim C7: `GetClusterHelixDistance` with an inverted layer range
(startLayer > endLayer) returns `STATUS_CODE_INVALID_PARAMETER` and leaves
both output distance parameters unchanged. -/
theorem getClusterHelixDistance_inverted_range :
    ∀ (dist : CaloHit → StatusCode × Rat) (pCluster : Cluster)
      (startLayer endLayer : PseudoLayer) (maxOccupiedLayers : Nat)
      (closest mean : Rat),
      startLayer > endLayer →
      GetClusterHelixDistance dist pCluster startLayer endLayer maxOccupiedLayers closest mean =
        (StatusCode.STATUS_CODE_INVALID_PARAMETER, closest, mean) := by
  intro dist pCluster startLayer endLayer maxOccupiedLayers closest mean h
  simp [GetClusterHelixDistance, h]

/-- Witness for claim C7: the inverted range 2 > 1 is rejected with the
output distances untouched. -/
theorem getClusterHelixDistance_inverted_range_witness :
    GetClusterHelixDistance (fun _ => (StatusCode.STATUS_CODE_SUCCESS, 0))
        (Cluster.mk 0 []) 2 1 10 5 6 =
      (StatusCode.STATUS_CODE_INVALID_PARAMETER, 5, 6) :=
  getClusterHelixDistance_inverted_range (fun _ => (StatusCode.STATUS_CODE_SUCCESS, 0))
    (Cluster.mk 0 []) 2 1 10 5 6 (by decide)

/-- Claim C10: both fraction helpers return exactly 0 when the probed
cluster reports zero calo hits, so their final division by the hit count is
guarded against a zero denominator. -/
theorem fraction_zero_when_no_hits :
    ∀ (isClose : CaloHit → CaloHit → Bool) (inCone : CaloHit → Bool)
      (pClusterI pClusterJ pCluster : Cluster),
      (pClusterI.GetNCaloHits = 0 →
        GetFractionOfCloseHits isClose pClusterI pClusterJ = 0) ∧
      (pCluster.GetNCaloHits = 0 →
        GetFractionOfHitsInCone inCone pCluster = 0) := by
  intro isClose inCone pClusterI pClusterJ pCluster
  constructor
  · intro h
    simp [GetFractionOfCloseHits, h]
  · intro h
    simp [GetFractionOfHitsInCone, h]

/-- Witness for claim C10: clusters reporting zero hits give fraction 0. -/
theorem fraction_zero_when_no_hits_witness :
    GetFractionOfCloseHits (fun _ _ => true) (Cluster.mk 0 []) (Cluster.mk 0 [(3, [4])]) = 0 ∧
    GetFractionOfHitsInCone (fun _ => true) (Cluster.mk 0 []) = 0 :=
  ⟨(fraction_zero_when_no_hits (fun _ _ => true) (fun _ => true)
      (Cluster.mk 0 []) (Cluster.mk 0 [(3, [4])]) (Cluster.mk 0 [])).1 rfl,
    (fraction_zero_when_no_hits (fun _ _ => true) (fun _ => true)
      (Cluster.mk 0 []) (Cluster.mk 0 [(3, [4])]) (Cluster.mk 0 [])).2 rfl⟩

end pandora
